import Mathlib

/-!
# Verification of the react-rt-demo data pipeline

This development gives a shallow embedding, in Lean 4, of the core data
pipeline of the `react-rt-demo` repository and proves (or refutes) the
properties its specification states about that pipeline.

Embedded components and their sources:

* the P&L engine (`src/ui/public/workers/pnl-calculator-worker.js`,
  class `PnLCalculatorWorker`);
* the Tier-2 ingress buffer (`src/ui/public/workers/websocket-shared-worker.js`,
  class `CircularBuffer`) and the shared-worker control operations around it;
* the oscillator engine (`src/api/src/mock-data-generator.ts`,
  class `FastMockUpdatesGenerator`).

Modelling conventions:

* JavaScript `number` values are modelled as exact rationals (`ℚ`).  All
  properties proved here are either arithmetic identities that the source
  obtains through explicit integer rounding (`Math.round` + `BigInt`), or
  order/structural properties that are preserved by the monotone rounding
  maps of IEEE arithmetic; where an abstraction matters it is pointed out
  at the definition it affects.
* JavaScript `BigInt` values are `ℤ`; `BigInt` division truncates toward
  zero, which is `Int.tdiv`.
* JavaScript 32-bit bitwise operations (`<<`, `>>`, `&`) coerce their
  operands with `ToInt32`; `toInt32` below is that coercion on `ℤ`.
* `Math.sin` and `Math.PI` are transcendental floating-point functions with
  no shallow embedding; the oscillator model is therefore parametric in a
  sine evaluation function `sinQ : ℚ → ℚ` and a constant `piQ : ℚ`.  Every
  theorem proved about the oscillator holds for all values of these
  parameters (in particular for the values the real program computes).
-/

namespace JsNum

/-- JavaScript `Math.round x`: rounds half toward `+∞`
(`Math.round 0.5 = 1`, `Math.round (-0.5) = 0`), i.e. `⌊x + 1/2⌋`. -/
def jsRound (q : ℚ) : ℤ := ⌊q + 1/2⌋

/-- Division of JavaScript `BigInt`s: exact quotient truncated toward zero. -/
def jsBigIntDiv (a b : ℤ) : ℤ := a.tdiv b

/-- The `%` remainder operator of JavaScript on integral values: the sign
follows the dividend (truncated division remainder). -/
def jsRem (a b : ℤ) : ℤ := a.tmod b

/-- The `ToInt32` coercion used by the JavaScript bitwise operators: reduce
modulo `2^32` and pick the representative in `[-2^31, 2^31)`. -/
def toInt32 (z : ℤ) : ℤ :=
  let m := z.emod (2 ^ 32)
  if m < 2 ^ 31 then m else m - 2 ^ 32

/-- JavaScript `x << n` on an `Int32` operand: shift left and wrap. -/
def jsShl (z : ℤ) (n : ℕ) : ℤ := toInt32 (toInt32 z * 2 ^ n)

/-- JavaScript `x >> n` (sign-propagating right shift): `ToInt32`, then
floor-divide by `2^n`. -/
def jsShr (z : ℤ) (n : ℕ) : ℤ := (toInt32 z).fdiv (2 ^ n)

/-- JavaScript `x & 0xff`: the low 8 bits of the two's-complement
representation, always in `[0, 256)`. -/
def jsAnd255 (z : ℤ) : ℤ := (toInt32 z).emod 256

end JsNum

namespace PnL

open JsNum

/-- One decoded update record: seven doubles
`[symbolIndex, last, change, changePercentage, high, low, volume]`
(the chunk the loop of `calculatePnL` reads at offsets `i .. i+6`). -/
structure UpdateRecord where
  symbolIndex : ℚ
  last : ℚ
  change : ℚ
  changePercentage : ℚ
  high : ℚ
  low : ℚ
  volume : ℚ
deriving DecidableEq, Repr

/-- A record enriched with the computed P&L fields (the 9-element chunk
`stockData` that `calculatePnL` splices into the output array). -/
structure EnrichedRecord where
  symbolIndex : ℚ
  last : ℚ
  change : ℚ
  changePercentage : ℚ
  high : ℚ
  low : ℚ
  volume : ℚ
  unrealizedPL : ℚ
  unrealizedPLPercent : ℚ
deriving DecidableEq, Repr

/-- The aggregate block returned by `calculatePnL`. -/
structure Aggregates where
  pnlAmount : ℚ
  pnlPercentage : ℚ
  pCount : ℕ
  lCount : ℕ
deriving DecidableEq, Repr

/-- A position `[quantity, entryPrice]` (`this.positions[symbolIndex]`). -/
structure Position where
  quantity : ℚ
  entryPrice : ℚ
deriving DecidableEq, Repr

/-- The positions table: a JavaScript array indexed by symbol index, with
`undefined` (here `none`) at indices the user does not hold. -/
def PositionsTable := List (Option Position)

/-- Lookup `this.positions[symbolIndex]`: a JavaScript array read with a `number`
subscript yields an element only for an integral non-negative in-bounds
index and `undefined` otherwise. -/
def posLookup (positions : PositionsTable) (idx : ℚ) : Option Position :=
  if idx.den = 1 ∧ 0 ≤ idx.num then
    (positions : List (Option Position)).getD idx.num.toNat none
  else
    none

/-- Group a flat array of doubles into 7-element update records, exactly as
the loop `for (i = 0; i < rawData.length; i += 7)` reads them.  Defined for
batches whose length is a multiple of 7 (the shape every encoded update
batch has); a trailing partial chunk — which in the source reads
`undefined` past the end of the array — is not modelled and is dropped. -/
def toRecords : List ℚ → List UpdateRecord
  | s :: l :: c :: cp :: h :: lo :: v :: rest =>
      ⟨s, l, c, cp, h, lo, v⟩ :: toRecords rest
  | _ => []

/-- The fixed-point P&L computation of `calculatePnL` for one record with a
position, on rounded scaled integers (scale `10000`, JavaScript `BigInt`
arithmetic). -/
def enrich (pos : Position) (r : UpdateRecord) : EnrichedRecord :=
  let currentPriceBigInt := jsRound (r.last * 10000)
  let entryPriceBigInt := jsRound (pos.entryPrice * 10000)
  let quantityBigInt := jsRound pos.quantity
  let priceDiffBigInt := currentPriceBigInt - entryPriceBigInt
  let unrealizedPLBigInt := jsBigIntDiv (priceDiffBigInt * quantityBigInt) 10000
  let unrealizedPL : ℚ := (unrealizedPLBigInt : ℚ)
  let unrealizedPLPercentage : ℚ :=
    if 0 < pos.entryPrice then (r.last - pos.entryPrice) / pos.entryPrice * 100 else 0
  { symbolIndex := r.symbolIndex
    last := r.last
    change := r.change
    changePercentage := r.changePercentage
    high := r.high
    low := r.low
    volume := r.volume
    unrealizedPL := unrealizedPL
    unrealizedPLPercent := unrealizedPLPercentage }

/-- The value `investedAmountBigInt` for one record with a position. -/
def investedAmount (pos : Position) : ℤ :=
  jsBigIntDiv (jsRound (pos.entryPrice * 10000) * jsRound pos.quantity) 10000

/-- The value `unrealizedPLBigInt` for one record with a position (the `BigInt` value
added into the running total). -/
def unrealizedPLBig (pos : Position) (r : UpdateRecord) : ℤ :=
  jsBigIntDiv ((jsRound (r.last * 10000) - jsRound (pos.entryPrice * 10000)) *
    jsRound pos.quantity) 10000

/-- Method `_insertSorted`: scan for the first element whose P&L percentage makes
the comparison `break`, and splice the new 9-field chunk in there.  With
`isLoss = true` the new record goes before the first strictly larger
percentage (most negative first); with `isLoss = false` before the first
strictly smaller percentage (most positive first). -/
def insertSorted (isLoss : Bool) (x : EnrichedRecord) :
    List EnrichedRecord → List EnrichedRecord
  | [] => [x]
  | e :: rest =>
      if (if isLoss then x.unrealizedPLPercent < e.unrealizedPLPercent
          else e.unrealizedPLPercent < x.unrealizedPLPercent) then
        x :: e :: rest
      else
        e :: insertSorted isLoss x rest

/-- The running state of the loop body of `calculatePnL`. -/
structure LoopState where
  lossesData : List EnrichedRecord
  profitsData : List EnrichedRecord
  totalPnlAmountBigInt : ℤ
  totalInvestedAmountBigInt : ℤ
  positiveCount : ℕ
  negativeCount : ℕ
deriving DecidableEq, Repr

def initLoopState : LoopState := ⟨[], [], 0, 0, 0, 0⟩

/-- One iteration of the loop of `calculatePnL`: skip records with no
position, otherwise enrich, accumulate aggregates and insert into the
losses or profits partition. -/
def loopStep (positions : PositionsTable) (st : LoopState)
    (r : UpdateRecord) : LoopState :=
  match posLookup positions r.symbolIndex with
  | none => st
  | some pos =>
      let e := enrich pos r
      let plBig := unrealizedPLBig pos r
      let st := { st with
        totalPnlAmountBigInt := st.totalPnlAmountBigInt + plBig
        totalInvestedAmountBigInt :=
          st.totalInvestedAmountBigInt + investedAmount pos
        positiveCount := if 0 < e.unrealizedPL then st.positiveCount + 1
          else st.positiveCount
        negativeCount :=
          if e.unrealizedPL < 0 then st.negativeCount + 1 else st.negativeCount }
      if e.unrealizedPLPercent < 0 then
        { st with lossesData := insertSorted true e st.lossesData }
      else
        { st with profitsData := insertSorted false e st.profitsData }

/-- What `calculatePnL` returns: either its `rawData` argument passed
through unchanged (the early `return rawData`), or a computed result
`{ data, timestamp, aggregates }`. -/
inductive PnLReturn where
  | passthrough (raw : Option (List ℚ))
  | result (data : List EnrichedRecord) (timestamp : ℚ) (aggregates : Aggregates)
deriving DecidableEq, Repr

/-- Method `PnLCalculatorWorker.calculatePnL`.  `headerData` is the stored
directory (`null` until `set-header` arrives), `rawData` the update batch
(`null`/`undefined` modelled as `none`; note that an *empty* array is
truthy in JavaScript, so `!rawData` does not fire on `[]`). -/
def calculatePnL (headerData : Option (List String × List String))
    (positions : PositionsTable) (rawData : Option (List ℚ)) (timestamp : ℚ) :
    PnLReturn :=
  match headerData, rawData with
  | none, _ => .passthrough rawData
  | some _, none => .passthrough none
  | some _, some d =>
      let final := (toRecords d).foldl (loopStep positions) initLoopState
      let enhancedData := final.lossesData ++ final.profitsData
      let totalPnlAmount : ℚ := (final.totalPnlAmountBigInt : ℚ)
      let totalInvestedAmount : ℚ := (final.totalInvestedAmountBigInt : ℚ)
      let totalPnlPercentage : ℚ :=
        if 0 < totalInvestedAmount then totalPnlAmount / totalInvestedAmount * 100
        else 0
      .result enhancedData timestamp
        ⟨totalPnlAmount, totalPnlPercentage, final.positiveCount,
          final.negativeCount⟩

/-- The enriched records a batch produces, in input order: one per record
that has a position. -/
def enrichedRecs (positions : PositionsTable) (recs : List UpdateRecord) :
    List EnrichedRecord :=
  recs.filterMap fun r => (posLookup positions r.symbolIndex).map (enrich · r)

def enrichedOf (positions : PositionsTable) (d : List ℚ) : List EnrichedRecord :=
  enrichedRecs positions (toRecords d)

/-- Ascending order on the computed P&L percentage (the order of the
losses partition: most negative first). -/
def pctLE (a b : EnrichedRecord) : Prop :=
  a.unrealizedPLPercent ≤ b.unrealizedPLPercent

/-- Descending order on the computed P&L percentage (the order of the
profits partition: most positive first). -/
def pctGE (a b : EnrichedRecord) : Prop :=
  b.unrealizedPLPercent ≤ a.unrealizedPLPercent

end PnL


namespace Ingress

/-- The three named drop strategies of `BACKPRESSURE_CONFIG.dropStrategy`
(the `default` arm of the `switch` behaves like `drop-oldest`). -/
inductive DropStrategy where
  | dropOldest
  | dropNewest
  | dropMiddle
deriving DecidableEq, Repr

/-- The runtime backpressure configuration (`BACKPRESSURE_CONFIG`).  Only
the fields the buffer logic reads are modelled; `enableMetrics` and
`warningThreshold` feed `console.warn` logging only.  The numeric fields
are JavaScript numbers; configurations with non-negative integral values
(the only ones the repository uses) are modelled. -/
structure Config where
  maxBufferSize : ℕ
  dropStrategy : DropStrategy
  keepAtEdges : ℕ
deriving DecidableEq, Repr

/-- Class `CircularBuffer`: the Tier-2 bounded ingress buffer.
`lastWarningTime` (wall-clock, used only to rate-limit a debug warning) is
not modelled. -/
structure CircularBuffer (α : Type) where
  config : Config
  buffer : List α
  droppedCount : ℕ
  totalReceived : ℕ
  peakBufferSize : ℕ
deriving DecidableEq, Repr

namespace CircularBuffer

/-- A freshly constructed buffer (`new CircularBuffer(config)`). -/
def mk0 (α : Type) (config : Config) : CircularBuffer α :=
  { config := config, buffer := [], droppedCount := 0, totalReceived := 0,
            peakBufferSize := 0 }

/-- JavaScript `arr.slice(-k)` for a non-negative integral `k`.  Beware:
`-0 === 0`, so `k = 0` yields the *whole* array, not the last zero
elements; for `k ≥ 1` it is the last `min k arr.length` elements. -/
def jsSliceFromEnd (l : List α) (k : ℕ) : List α :=
  if k = 0 then l else l.drop (l.length - k)

/-- Method `dropMiddleStrategy(newMessage)`: the buffer update it performs (the
source mutates `this.buffer`; this returns the new contents). -/
def dropMiddleStrategy (cfg : Config) (buffer : List α) (newMessage : α) :
    List α :=
  let keepCount := cfg.keepAtEdges
  let totalToKeep := keepCount * 2
  if cfg.maxBufferSize ≤ totalToKeep then
    -- fallback to drop-oldest: shift, then push
    buffer.tail ++ [newMessage]
  else
    let firstPart := buffer.take keepCount
    let lastPart := jsSliceFromEnd buffer keepCount
    firstPart ++ lastPart ++ [newMessage]

/-- Method `add(message)`: returns the updated buffer and the boolean result
(`true` when the buffer had room, `false` when the drop strategy ran). -/
def add (b : CircularBuffer α) (message : α) : CircularBuffer α × Bool :=
  let b := { b with totalReceived := b.totalReceived + 1 }
  if b.buffer.length < b.config.maxBufferSize then
    let buf := b.buffer ++ [message]
    ({ b with
        buffer := buf,
        peakBufferSize := max b.peakBufferSize buf.length }, true)
  else
    let b := { b with droppedCount := b.droppedCount + 1 }
    let buf :=
      match b.config.dropStrategy with
      | .dropOldest => b.buffer.tail ++ [message]
      | .dropNewest => b.buffer
      | .dropMiddle => dropMiddleStrategy b.config b.buffer message
    ({ b with buffer := buf }, false)

/-- Method `getNext()`: `shift` the head off (returned value and updated buffer). -/
def getNext (b : CircularBuffer α) : Option α × CircularBuffer α :=
  (b.buffer.head?, { b with buffer := b.buffer.tail })

/-- Method `isEmpty()`. -/
def isEmpty (b : CircularBuffer α) : Bool := b.buffer.isEmpty

/-- Method `clear()`: empty the buffer and reset the metrics counters. -/
def clear (b : CircularBuffer α) : CircularBuffer α :=
  { b with
    buffer := [],
    droppedCount := 0,
    totalReceived := 0,
    peakBufferSize := 0 }

end CircularBuffer

/-- One operation of a client of the buffer, for stating properties over
arbitrary operation sequences. -/
inductive BufOp (α : Type) where
  | add (message : α)
  | getNext
  | clear
deriving DecidableEq, Repr

/-- Run one operation. -/
def applyOp (b : CircularBuffer α) : BufOp α → CircularBuffer α
  | .add m => (b.add m).1
  | .getNext => (b.getNext).2
  | .clear => b.clear

/-- Run a sequence of operations. -/
def runOps (b : CircularBuffer α) (ops : List (BufOp α)) : CircularBuffer α :=
  ops.foldl applyOp b

/-- Method `WebSocketSharedWorker.updateBackpressureConfig(newConfig)`: build a
fresh buffer with the merged configuration and replay the old buffer's
contents into it with `getNext`/`add`.  `newCfg` is the result of
`Object.assign(BACKPRESSURE_CONFIG, newConfig)`, i.e. the fully merged
configuration. -/
def updateBackpressureConfig (b : CircularBuffer α) (newCfg : Config) :
    CircularBuffer α :=
  b.buffer.foldl (fun acc m => (acc.add m).1) (CircularBuffer.mk0 α newCfg)

end Ingress


namespace Worker

open Ingress

/-- The kind of decode `processRuntimeMessage` performs on a popped
message: the first message since the last `connect` is decoded with
`headerDataType` (Directory), every later one with `priceUpdatesType`
(Update). -/
inductive DecodeKind where
  | header
  | update
deriving DecidableEq, Repr

/-- The state of `WebSocketSharedWorker` relevant to connection handling,
the two buffer tiers and the stateful decode contract.  Messages are
abstract payloads (`ℕ`).  `decodeLog` is a ghost, append-only trace of the
decodes performed, used to state observable properties; the source has no
such field.  Connection ports, the protobuf schema objects and console
logging are not modelled. -/
structure WorkerState where
  connected : Bool
  isFirstMessage : Bool
  isProtobufReady : Bool
  pendingMessages : List ℕ
  runtimeBuffer : CircularBuffer ℕ
  headerData : Option ℕ
  decodeLog : List DecodeKind
deriving DecidableEq, Repr

/-- The constructor state (`new WebSocketSharedWorker()`), with the default
`BACKPRESSURE_CONFIG`. -/
def initWorker : WorkerState :=
  { connected := false, isFirstMessage := true, isProtobufReady := false,
    pendingMessages := [], runtimeBuffer := CircularBuffer.mk0 ℕ ⟨100, .dropOldest, 10⟩,
    headerData := none, decodeLog := [] }

/-- Method `disconnect()`: close and null the socket, then clear both the Tier-1
initialization queue and the Tier-2 runtime buffer. -/
def disconnectOp (s : WorkerState) : WorkerState :=
  { s with
    connected := false,
    pendingMessages := [],
    runtimeBuffer := s.runtimeBuffer.clear }

/-- Method `connect(url)`: disconnect any open socket first, open the new one and
set `isFirstMessage = true` (the decode-state reset lives here). -/
def connectOp (s : WorkerState) : WorkerState :=
  let s := if s.connected then disconnectOp s else s
  { s with connected := true, isFirstMessage := true }

/-- Method `handleWebSocketMessage(event)`: Tier-1 queue the message while the
schema is loading, otherwise offer it to the Tier-2 runtime buffer. -/
def handleWebSocketMessage (s : WorkerState) (m : ℕ) : WorkerState :=
  if s.isProtobufReady then
    { s with runtimeBuffer := (s.runtimeBuffer.add m).1 }
  else
    { s with pendingMessages := s.pendingMessages ++ [m] }

/-- Method `processRuntimeMessage(event)` on one popped message: decode as
Directory if it is the first message since the last connect, else as
Update. -/
def processRuntimeMessage (s : WorkerState) (m : ℕ) : WorkerState :=
  if s.isFirstMessage then
    { s with
      isFirstMessage := false,
      headerData := some m,
      decodeLog := s.decodeLog ++ [.header] }
  else
    { s with decodeLog := s.decodeLog ++ [.update] }

/-- One slice of the runtime processor loop: pop the next buffered message
if any and process it. -/
def processOneOp (s : WorkerState) : WorkerState :=
  match s.runtimeBuffer.getNext with
  | (none, _) => s
  | (some m, rest) => processRuntimeMessage { s with runtimeBuffer := rest } m

/-- Protobuf initialization finishing: set `isProtobufReady` and drain the
Tier-1 queue through `handleWebSocketMessage` in arrival order
(`processPendingMessages`). -/
def protobufReadyOp (s : WorkerState) : WorkerState :=
  s.pendingMessages.foldl handleWebSocketMessage
    { s with isProtobufReady := true, pendingMessages := [] }

/-- The events that can reach the worker: control verbs from a port,
socket message arrival (only possible while the socket is open), the
schema finishing loading, and a runtime-processor slice. -/
inductive WEvent where
  | connect
  | disconnect
  | wsMessage (m : ℕ)
  | protobufReady
  | processOne
deriving DecidableEq, Repr

/-- Apply one event. A `wsMessage` on a closed socket cannot be delivered
(the `WebSocket` object and its `onmessage` handler are gone) and is a
no-op. -/
def wStep (s : WorkerState) : WEvent → WorkerState
  | .connect => connectOp s
  | .disconnect => disconnectOp s
  | .wsMessage m => if s.connected then handleWebSocketMessage s m else s
  | .protobufReady => protobufReadyOp s
  | .processOne => processOneOp s

/-- Apply a sequence of events. -/
def wRun (s : WorkerState) (evs : List WEvent) : WorkerState :=
  evs.foldl wStep s

/-- The decodes performed strictly after state `s`, along the events
`evs`. -/
def decodesAfter (s : WorkerState) (evs : List WEvent) : List DecodeKind :=
  (wRun s evs).decodeLog.drop s.decodeLog.length

end Worker

namespace Osc

open JsNum

/-- One row of the static reference table (`data/s&p-500.json` entries as
read by `FastMockUpdatesGenerator`).  `symbol` is the ticker as its
sequence of UTF-16 code units (`symbol.charCodeAt(i)`); the display name
is not used by any computation modelled here. -/
structure Stock where
  symbol : List ℕ
  last : ℚ
  high : ℚ
  low : ℚ
  volume : ℚ
deriving DecidableEq, Repr

/-- Function `hashSymbol`: `hash = (hash << 5) - hash + charCode; hash = hash & hash`
per character, starting from 0.  `<<` wraps to `Int32`; the following `-`
and `+` are exact (the magnitudes stay far below 2^53); `& hash` coerces
back to `Int32`. -/
def hashSymbol (symbol : List ℕ) : ℤ :=
  symbol.foldl (fun hash c => toInt32 (jsShl hash 5 - hash + (c : ℤ))) 0

/-- Constant `BASE_AMPLITUDE_PERCENTAGE = 0.02`. -/
def BASE_AMPLITUDE_PERCENTAGE : ℚ := 1/50

/-- Constant `BASE_FREQUENCY = 0.001`. -/
def BASE_FREQUENCY : ℚ := 1/1000

/-- Function `getStockFrequency`: `0.5 + (|hash| % 201) / 100`. -/
def getStockFrequency (symbol : List ℕ) : ℚ :=
  1/2 + ((jsRem |hashSymbol symbol| 201 : ℤ) : ℚ) / 100

/-- Function `getStockAmplitude`: `0.3 + ((|hash| >> 8) % 151) / 100`. -/
def getStockAmplitude (symbol : List ℕ) : ℚ :=
  3/10 + ((jsRem (jsShr |hashSymbol symbol| 8) 151 : ℤ) : ℚ) / 100

section Transcendental

/- Here `piQ` models the double `Math.PI` and `sinQ` models the map
`x ↦ Math.sin x` (including the IEEE rounding of its argument chain).
Both are fixed pure functions in the source; every theorem below holds
for all values of these parameters. -/
variable (sinQ : ℚ → ℚ) (piQ : ℚ)

/-- Function `getStockPhaseOffset`: `(((|hash| >> 16) % 1000) / 1000) * 2 * Math.PI`. -/
def getStockPhaseOffset (symbol : List ℕ) : ℚ :=
  ((jsRem (jsShr |hashSymbol symbol| 16) 1000 : ℤ) : ℚ) / 1000 * 2 * piQ

/-- Function `getStockTimeOffset`: combine three byte ranges of `|hash|` and reduce
modulo 100000. -/
def getStockTimeOffset (symbol : List ℕ) : ℚ :=
  let hash := |hashSymbol symbol|
  let offset1 := jsAnd255 hash * 47
  let offset2 := jsAnd255 (jsShr hash 8) * 73
  let offset3 := jsAnd255 (jsShr hash 16) * 31
  (((offset1 + offset2 + offset3).emod 100000 : ℤ) : ℚ)

/-- The per-symbol slice of the generator state: the four hash-derived
oscillator parameters, the original reference price, the current stored
record fields, and the running session high/low. -/
structure SymState where
  symbol : List ℕ
  frequency : ℚ
  amplitude : ℚ
  phase : ℚ
  timeOffset : ℚ
  originalPrice : ℚ
  last : ℚ
  change : ℚ
  changePercentage : ℚ
  sessionHigh : ℚ
  sessionLow : ℚ
  volume : ℚ
deriving DecidableEq, Repr

/-- The generator state: one `SymState` per reference-table row (the
source keeps these as parallel typed arrays indexed by stock index), the
tick counter `_timeStep`, and the update queue `_updateQueue`
(`_queueSize` is its length). -/
structure GenState where
  syms : List SymState
  timeStep : ℕ
  updateQueue : List ℕ
deriving DecidableEq, Repr

/-- The constructor's initialization of stock `i` from its table row:
derive the hash parameters, compute the initial sine-offset price, and
seed the stored record and the session high/low. -/
def initSym (stock : Stock) : SymState :=
  let frequencyMul := getStockFrequency stock.symbol
  let amplitudeMul := getStockAmplitude stock.symbol
  let phase := getStockPhaseOffset piQ stock.symbol
  let timeOffset := getStockTimeOffset stock.symbol
  let frequency := frequencyMul * BASE_FREQUENCY
  let amplitude := amplitudeMul * BASE_AMPLITUDE_PERCENTAGE
  let sineValue := sinQ (timeOffset * frequency + phase)
  let initialPriceChangePercentage := sineValue * amplitude
  let initialPrice := max (1/100) (stock.last * (1 + initialPriceChangePercentage))
  { symbol := stock.symbol
    frequency := frequencyMul
    amplitude := amplitudeMul
    phase := phase
    timeOffset := timeOffset
    originalPrice := stock.last
    last := initialPrice
    change := initialPrice - stock.last
    changePercentage :=
      if 0 < stock.last then (initialPrice - stock.last) / stock.last * 100 else 0
    sessionHigh := max stock.high initialPrice
    sessionLow := min stock.low initialPrice
    volume := stock.volume }

/-- Constructor `new FastMockUpdatesGenerator()` over a reference table. -/
def initGen (table : List Stock) : GenState :=
  { syms := table.map (initSym sinQ piQ)
    timeStep := 0
    updateQueue := [] }

/-- The body of the `batchUpdate` loop for one stock at time step `t`:
recompute the sine-wave price, derive change fields, update the session
high/low, and store the new record.  The volume is left unchanged. -/
def updateSym (t : ℕ) (s : SymState) : SymState :=
  let frequency := s.frequency * BASE_FREQUENCY
  let amplitude := s.amplitude * BASE_AMPLITUDE_PERCENTAGE
  let sineValue := sinQ (((t : ℚ) + s.timeOffset) * frequency + s.phase)
  let priceChangePercentage := sineValue * amplitude
  let newPrice := max (1/100) (s.originalPrice * (1 + priceChangePercentage))
  let totalPriceChange := newPrice - s.originalPrice
  let changePercentage :=
    if 0 < s.originalPrice then totalPriceChange / s.originalPrice * 100 else 0
  { s with
    last := newPrice
    change := totalPriceChange
    changePercentage := changePercentage
    sessionHigh := if s.sessionHigh < newPrice then newPrice else s.sessionHigh
    sessionLow := if newPrice < s.sessionLow then newPrice else s.sessionLow }

/-- Method `batchUpdate()`: reset the queue, advance `_timeStep`, update every
stock ("Update all stocks every time (simplified)") and push every index
onto the update queue. -/
def batchUpdate (g : GenState) : GenState :=
  let t := g.timeStep + 1
  { syms := g.syms.map (updateSym sinQ t)
    timeStep := t
    updateQueue := List.range g.syms.length }

/-- The structured update records `getUpdatedStocks()` serialises: for each
queued stock index, the 7-field record `[stockIndex, last, change,
changePercentage, high, low, volume]` read from the stored data. -/
def updatedRecords (g : GenState) : List PnL.UpdateRecord :=
  g.updateQueue.filterMap fun (i : ℕ) =>
    (g.syms[i]?).map fun s =>
      ⟨(i : ℚ), s.last, s.change, s.changePercentage, s.sessionHigh,
        s.sessionLow, s.volume⟩

/-- Method `getUpdatedStocks()` itself: the records flattened into one array of
`7 * _queueSize` doubles. -/
def getUpdatedStocks (g : GenState) : List ℚ :=
  (updatedRecords g).flatMap fun r =>
    [r.symbolIndex, r.last, r.change, r.changePercentage, r.high, r.low, r.volume]

/-- Run `n` ticks (`n` calls to `batchUpdate`) from a generator state. -/
def ticks (g : GenState) : ℕ → GenState
  | 0 => g
  | n + 1 => batchUpdate sinQ (ticks g n)

/-- The generator state after `n` ticks from startup. -/
def genAfter (table : List Stock) (n : ℕ) : GenState :=
  ticks sinQ (initGen sinQ piQ table) n

/-- The batch emitted at tick `n ≥ 1`: `batchUpdate` then
`getUpdatedStocks`, `n` ticks after startup. -/
def batchAt (table : List Stock) (n : ℕ) : List PnL.UpdateRecord :=
  updatedRecords (genAfter sinQ piQ table n)

end Transcendental

end Osc

namespace PnL

lemma insertSorted_perm (isLoss : Bool) (x : EnrichedRecord) :
    ∀ l : List EnrichedRecord, (insertSorted isLoss x l).Perm (x :: l)
  | [] => List.Perm.refl _
  | e :: rest => by
      unfold insertSorted
      split
      · split
        · exact List.Perm.refl _
        · exact ((insertSorted_perm isLoss x rest).cons e).trans
            (List.Perm.swap x e rest)
      · split
        · exact List.Perm.refl _
        · exact ((insertSorted_perm isLoss x rest).cons e).trans
            (List.Perm.swap x e rest)

lemma mem_insertSorted {isLoss : Bool} {x a : EnrichedRecord}
    {l : List EnrichedRecord} (h : a ∈ insertSorted isLoss x l) :
    a = x ∨ a ∈ l := by
  have := (insertSorted_perm isLoss x l).mem_iff.1 h
  simpa using this

lemma insertSorted_loss_sorted (x : EnrichedRecord) :
    ∀ l : List EnrichedRecord, l.Sorted pctLE →
      (insertSorted true x l).Sorted pctLE
  | [], _ => by simp [insertSorted, List.Sorted]
  | e :: rest, h => by
      rw [List.sorted_cons] at h
      obtain ⟨he, hrest⟩ := h
      unfold insertSorted
      simp only [if_true]
      split
      · rename_i hc
        rw [List.sorted_cons]
        refine ⟨?_, List.sorted_cons.2 ⟨he, hrest⟩⟩
        intro b hb
        rcases List.mem_cons.1 hb with hb | hb
        · subst hb; exact le_of_lt hc
        · exact le_of_lt (lt_of_lt_of_le hc (he b hb))
      · rename_i hc
        rw [List.sorted_cons]
        refine ⟨?_, insertSorted_loss_sorted x rest hrest⟩
        intro b hb
        rcases mem_insertSorted hb with hb | hb
        · subst hb; exact not_lt.1 hc
        · exact he b hb

lemma insertSorted_profit_sorted (x : EnrichedRecord) :
    ∀ l : List EnrichedRecord, l.Sorted pctGE →
      (insertSorted false x l).Sorted pctGE
  | [], _ => by simp [insertSorted, List.Sorted]
  | e :: rest, h => by
      rw [List.sorted_cons] at h
      obtain ⟨he, hrest⟩ := h
      unfold insertSorted
      simp only [Bool.false_eq_true, if_false]
      split
      · rename_i hc
        rw [List.sorted_cons]
        refine ⟨?_, List.sorted_cons.2 ⟨he, hrest⟩⟩
        intro b hb
        rcases List.mem_cons.1 hb with hb | hb
        · subst hb; exact le_of_lt hc
        · exact le_of_lt (lt_of_le_of_lt (he b hb) hc)
      · rename_i hc
        rw [List.sorted_cons]
        refine ⟨?_, insertSorted_profit_sorted x rest hrest⟩
        intro b hb
        rcases mem_insertSorted hb with hb | hb
        · subst hb; exact not_lt.1 hc
        · exact he b hb

lemma foldl_losses_perm (positions : PositionsTable) :
    ∀ (recs : List UpdateRecord) (st : LoopState),
      (recs.foldl (loopStep positions) st).lossesData.Perm
        (st.lossesData ++ (enrichedRecs positions recs).filter
          (fun e => e.unrealizedPLPercent < 0))
  | [], st => by simp [enrichedRecs]
  | r :: rest, st => by
      rw [List.foldl_cons]
      refine (foldl_losses_perm positions rest (loopStep positions st r)).trans ?_
      cases hp : posLookup positions r.symbolIndex with
      | none =>
          simp [loopStep, hp, enrichedRecs]
      | some pos =>
          by_cases hneg : (enrich pos r).unrealizedPLPercent < 0
          · have hstep : (loopStep positions st r).lossesData =
                insertSorted true (enrich pos r) st.lossesData := by
              simp [loopStep, hp, hneg]
            rw [hstep]
            have hrecs : (enrichedRecs positions (r :: rest)).filter
                (fun e => e.unrealizedPLPercent < 0) =
                enrich pos r :: (enrichedRecs positions rest).filter
                  (fun e => e.unrealizedPLPercent < 0) := by
              simp [enrichedRecs, hp, hneg]
            rw [hrecs]
            refine ((insertSorted_perm true (enrich pos r)
              st.lossesData).append_right _).trans ?_
            exact (List.perm_middle).symm
          · have hstep : (loopStep positions st r).lossesData = st.lossesData := by
              simp [loopStep, hp, hneg]
            have hrecs : (enrichedRecs positions (r :: rest)).filter
                (fun e => e.unrealizedPLPercent < 0) =
                (enrichedRecs positions rest).filter
                  (fun e => e.unrealizedPLPercent < 0) := by
              simp [enrichedRecs, hp, hneg]
            rw [hstep, hrecs]

lemma foldl_profits_perm (positions : PositionsTable) :
    ∀ (recs : List UpdateRecord) (st : LoopState),
      (recs.foldl (loopStep positions) st).profitsData.Perm
        (st.profitsData ++ (enrichedRecs positions recs).filter
          (fun e => 0 ≤ e.unrealizedPLPercent))
  | [], st => by simp [enrichedRecs]
  | r :: rest, st => by
      rw [List.foldl_cons]
      refine (foldl_profits_perm positions rest (loopStep positions st r)).trans ?_
      cases hp : posLookup positions r.symbolIndex with
      | none =>
          simp [loopStep, hp, enrichedRecs]
      | some pos =>
          by_cases hneg : (enrich pos r).unrealizedPLPercent < 0
          · have hstep : (loopStep positions st r).profitsData = st.profitsData := by
              simp [loopStep, hp, hneg]
            have hrecs : (enrichedRecs positions (r :: rest)).filter
                (fun e => 0 ≤ e.unrealizedPLPercent) =
                (enrichedRecs positions rest).filter
                  (fun e => 0 ≤ e.unrealizedPLPercent) := by
              simp [enrichedRecs, hp, not_le.2 hneg]
            rw [hstep, hrecs]
          · have hstep : (loopStep positions st r).profitsData =
                insertSorted false (enrich pos r) st.profitsData := by
              simp [loopStep, hp, hneg]
            rw [hstep]
            have hrecs : (enrichedRecs positions (r :: rest)).filter
                (fun e => 0 ≤ e.unrealizedPLPercent) =
                enrich pos r :: (enrichedRecs positions rest).filter
                  (fun e => 0 ≤ e.unrealizedPLPercent) := by
              simp [enrichedRecs, hp, not_lt.1 hneg]
            rw [hrecs]
            refine ((insertSorted_perm false (enrich pos r)
              st.profitsData).append_right _).trans ?_
            exact (List.perm_middle).symm

lemma foldl_losses_sorted (positions : PositionsTable) :
    ∀ (recs : List UpdateRecord) (st : LoopState),
      st.lossesData.Sorted pctLE →
      (recs.foldl (loopStep positions) st).lossesData.Sorted pctLE
  | [], st, h => h
  | r :: rest, st, h => by
      rw [List.foldl_cons]
      refine foldl_losses_sorted positions rest (loopStep positions st r) ?_
      cases hp : posLookup positions r.symbolIndex with
      | none => simpa [loopStep, hp] using h
      | some pos =>
          by_cases hneg : (enrich pos r).unrealizedPLPercent < 0
          · have hstep : (loopStep positions st r).lossesData =
                insertSorted true (enrich pos r) st.lossesData := by
              simp [loopStep, hp, hneg]
            rw [hstep]
            exact insertSorted_loss_sorted _ _ h
          · have hstep : (loopStep positions st r).lossesData = st.lossesData := by
              simp [loopStep, hp, hneg]
            rwa [hstep]

lemma foldl_profits_sorted (positions : PositionsTable) :
    ∀ (recs : List UpdateRecord) (st : LoopState),
      st.profitsData.Sorted pctGE →
      (recs.foldl (loopStep positions) st).profitsData.Sorted pctGE
  | [], st, h => h
  | r :: rest, st, h => by
      rw [List.foldl_cons]
      refine foldl_profits_sorted positions rest (loopStep positions st r) ?_
      cases hp : posLookup positions r.symbolIndex with
      | none => simpa [loopStep, hp] using h
      | some pos =>
          by_cases hneg : (enrich pos r).unrealizedPLPercent < 0
          · have hstep : (loopStep positions st r).profitsData = st.profitsData := by
              simp [loopStep, hp, hneg]
            rwa [hstep]
          · have hstep : (loopStep positions st r).profitsData =
                insertSorted false (enrich pos r) st.profitsData := by
              simp [loopStep, hp, hneg]
            rw [hstep]
            exact insertSorted_profit_sorted _ _ h

end PnL

section PnLClaims

open PnL JsNum

/-- Claim C1: for a position with `entryPrice = 100.0`, `quantity = 10` and
an update record with `last = 100.30`, `calculatePnL` computes
`unrealizedPL` equal to exactly 3 — no floating-point residue — via the
fixed-point computation on rounded scaled integers (`round(last·10⁴) =
1003000`, `round(entry·10⁴) = 1000000`, `(3000·10)/10⁴ = 3` in `BigInt`
arithmetic). -/
theorem pnl_fixed_point_exact :
    calculatePnL (some ([], [])) [some ⟨10, 100⟩]
      (some [0, 1003/10, 0, 0, 101, 100, 1000]) 0 =
    .result [⟨0, 1003/10, 0, 0, 101, 100, 1000, 3, 3/10⟩] 0 ⟨3, 3/10, 1, 0⟩ := by
  have h4 : Int.tdiv 30000 10000 = 3 := by decide
  have h5 : Int.tdiv 10000000 10000 = 1000 := by decide
  norm_num [calculatePnL, toRecords, loopStep, initLoopState, posLookup, enrich,
    unrealizedPLBig, investedAmount, insertSorted, jsBigIntDiv, jsRound, h4, h5,
    List.getD]

/-- Claim C2: with the directory and positions set, the ranked sequence
returned by `calculatePnL` is exactly the enriched records with
`unrealizedPLPercent < 0` ordered ascending (most negative first),
followed by exactly those with `unrealizedPLPercent ≥ 0` ordered
descending (biggest gain first). -/
theorem pnl_ranking (hdr : List String × List String)
    (positions : PositionsTable) (d : List ℚ) (ts : ℚ) (hlen : 7 ∣ d.length) :
    ∃ L P aggs,
      calculatePnL (some hdr) positions (some d) ts = .result (L ++ P) ts aggs ∧
      L.Perm ((enrichedOf positions d).filter
        (fun e => e.unrealizedPLPercent < 0)) ∧
      P.Perm ((enrichedOf positions d).filter
        (fun e => 0 ≤ e.unrealizedPLPercent)) ∧
      L.Sorted pctLE ∧ P.Sorted pctGE := by
  refine ⟨((toRecords d).foldl (loopStep positions) initLoopState).lossesData,
    ((toRecords d).foldl (loopStep positions) initLoopState).profitsData,
    _, rfl, ?_, ?_, ?_, ?_⟩
  · simpa [initLoopState, enrichedOf] using
      foldl_losses_perm positions (toRecords d) initLoopState
  · simpa [initLoopState, enrichedOf] using
      foldl_profits_perm positions (toRecords d) initLoopState
  · exact foldl_losses_sorted positions (toRecords d) initLoopState
      (by simp [initLoopState])
  · exact foldl_profits_sorted positions (toRecords d) initLoopState
      (by simp [initLoopState])

/-- The spec's ranking example as a flat batch: six held symbols with P&L
percentages −5, −1, −3, +2, +7, +1 (entry 100, quantity 1 each). -/
def sampleRankBatch : List ℚ :=
  [0, 95, 0, 0, 0, 0, 0,
   1, 99, 0, 0, 0, 0, 0,
   2, 97, 0, 0, 0, 0, 0,
   3, 102, 0, 0, 0, 0, 0,
   4, 107, 0, 0, 0, 0, 0,
   5, 101, 0, 0, 0, 0, 0]

def sampleRankPositions : PositionsTable :=
  [some ⟨1, 100⟩, some ⟨1, 100⟩, some ⟨1, 100⟩, some ⟨1, 100⟩, some ⟨1, 100⟩,
   some ⟨1, 100⟩]

/-- Witness for C2 at the spec's own example batch. -/
theorem pnl_ranking_witness :
    7 ∣ sampleRankBatch.length ∧
    ∃ L P aggs,
      calculatePnL (some ([], [])) sampleRankPositions (some sampleRankBatch) 0 =
        .result (L ++ P) 0 aggs ∧
      L.Perm ((enrichedOf sampleRankPositions sampleRankBatch).filter
        (fun e => e.unrealizedPLPercent < 0)) ∧
      P.Perm ((enrichedOf sampleRankPositions sampleRankBatch).filter
        (fun e => 0 ≤ e.unrealizedPLPercent)) ∧
      L.Sorted pctLE ∧ P.Sorted pctGE :=
  ⟨by decide, pnl_ranking ([], []) sampleRankPositions sampleRankBatch 0 (by decide)⟩

/-- Counterexample to claim C3 as stated: an *empty* update batch is not
passed through unchanged — a JavaScript empty array is truthy, so
`!rawData` does not fire and the batch is processed, producing a computed
result object (empty data, zero aggregates) instead of the input array. -/
theorem pnl_empty_batch_processed :
    calculatePnL (some ([], [])) [] (some []) 0 = .result [] 0 ⟨0, 0, 0, 0⟩ ∧
    PnLReturn.result [] (0:ℚ) ⟨0, 0, 0, 0⟩ ≠ .passthrough (some []) := by
  constructor
  · norm_num [calculatePnL, toRecords, initLoopState]
  · intro h
    exact PnLReturn.noConfusion h

/-- Claim C3, amended: if the directory has not been set or the update
batch is absent (`null`/`undefined`), `calculatePnL` returns its input
unchanged without attempting any computation (and cannot throw: the guard
returns before anything is read); an *empty* batch, however, is truthy and
is processed, returning an empty computed result with zero aggregates
(also without throwing). -/
theorem pnl_guard_passthrough :
    (∀ (hdr : Option (List String × List String)) (positions : PositionsTable)
        (raw : Option (List ℚ)) (ts : ℚ), hdr = none ∨ raw = none →
        calculatePnL hdr positions raw ts = .passthrough raw) ∧
    (∀ (hdr : List String × List String) (positions : PositionsTable) (ts : ℚ),
        calculatePnL (some hdr) positions (some []) ts =
          .result [] ts ⟨0, 0, 0, 0⟩) := by
  constructor
  · rintro hdr positions raw ts (rfl | rfl)
    · rfl
    · cases hdr with
      | none => rfl
      | some h => rfl
  · intro hdr positions ts
    norm_num [calculatePnL, toRecords, initLoopState]

/-- Witness for C3 (amended), discharging the guard hypothesis at a
concrete input: no directory set, a non-empty batch supplied. -/
theorem pnl_guard_passthrough_witness :
    calculatePnL none [] (some [1, 2, 3]) 0 = .passthrough (some [1, 2, 3]) :=
  pnl_guard_passthrough.1 none [] (some [1, 2, 3]) 0 (Or.inl rfl)

end PnLClaims

namespace Ingress

lemma add_config {α} (b : CircularBuffer α) (m : α) :
    (b.add m).1.config = b.config := by
  unfold CircularBuffer.add
  dsimp only
  split
  · rfl
  · rfl

lemma add_not_full {α} (b : CircularBuffer α) (m : α)
    (h : b.buffer.length < b.config.maxBufferSize) :
    (b.add m).1.buffer = b.buffer ++ [m] := by
  unfold CircularBuffer.add
  rw [if_pos h]

lemma replay_appends {α} :
    ∀ (msgs : List α) (acc : CircularBuffer α),
      acc.buffer.length + msgs.length ≤ acc.config.maxBufferSize →
      (msgs.foldl (fun a m => (a.add m).1) acc).buffer = acc.buffer ++ msgs
  | [], acc, _ => by simp
  | m :: rest, acc, h => by
      rw [List.foldl_cons]
      have hlt : acc.buffer.length < acc.config.maxBufferSize := by
        simp at h; omega
      have hbuf := add_not_full acc m hlt
      have hcfg := add_config acc m
      have hrec := replay_appends rest ((acc.add m).1) (by
        rw [hbuf, hcfg]
        simp at h ⊢
        omega)
      rw [hrec, hbuf]
      simp

end Ingress

section IngressClaims

open Ingress Ingress.CircularBuffer

/-- Counterexample to claim C6 as stated: with `keepAtEdges = 0` and
capacity 2 (so `2·keepAtEdges < capacity`), `add` on the full buffer
`[1, 2]` yields `[1, 2, 3]`, not the claimed "first 0 + last 0 + new" =
`[3]` — JavaScript `slice(-0)` is `slice(0)` and keeps the whole buffer. -/
theorem dropmiddle_keep0_counterexample :
    2 * 0 < 2 ∧
    (add ⟨⟨2, .dropMiddle, 0⟩, [1, 2], 0, 2, 2⟩ (3 : ℕ)).1.buffer = [1, 2, 3] ∧
    (add ⟨⟨2, .dropMiddle, 0⟩, [1, 2], 0, 2, 2⟩ (3 : ℕ)).1.buffer ≠
      List.take 0 [1, 2] ++ List.drop (2 - 0) [1, 2] ++ [3] := by
  decide

/-- Claim C6, amended with `keepAtEdges ≥ 1`: on a full buffer under
`drop-middle`, if `2·keepAtEdges < capacity` and `keepAtEdges ≥ 1` then
`add m` leaves the first `keepAtEdges` elements, then the last
`keepAtEdges` elements, then `m`; if `2·keepAtEdges ≥ capacity`, `add m`
falls back to drop-oldest semantics (evict the head, append `m`).  (For
`keepAtEdges = 0` the `slice(-0)` quirk instead retains the whole
pre-overflow buffer and appends `m`.) -/
theorem dropmiddle_full_buffer {α : Type} (b : CircularBuffer α) (m : α)
    (hstrat : b.config.dropStrategy = .dropMiddle)
    (hfull : b.buffer.length = b.config.maxBufferSize) :
    (2 * b.config.keepAtEdges < b.config.maxBufferSize →
      1 ≤ b.config.keepAtEdges →
      (b.add m).1.buffer =
        b.buffer.take b.config.keepAtEdges ++
          b.buffer.drop (b.buffer.length - b.config.keepAtEdges) ++ [m]) ∧
    (b.config.maxBufferSize ≤ 2 * b.config.keepAtEdges →
      (b.add m).1.buffer = b.buffer.tail ++ [m]) := by
  have hnot : ¬ b.buffer.length < b.config.maxBufferSize := by omega
  constructor
  · intro hlt hk
    have hmid : ¬ b.config.maxBufferSize ≤ b.config.keepAtEdges * 2 := by omega
    have hk0 : b.config.keepAtEdges ≠ 0 := by omega
    simp [CircularBuffer.add, hnot, hstrat, dropMiddleStrategy, jsSliceFromEnd,
      hmid, hk0]
  · intro hge
    have hmid : b.config.maxBufferSize ≤ b.config.keepAtEdges * 2 := by omega
    simp [CircularBuffer.add, hnot, hstrat, dropMiddleStrategy, hmid]

def sampleMiddleBuffer : CircularBuffer ℕ :=
  ⟨⟨5, .dropMiddle, 2⟩, [1, 2, 3, 4, 5], 0, 5, 5⟩

/-- Witness for C6 (amended): capacity 5, `keepAtEdges = 2`, full buffer
`[1,2,3,4,5]`; adding 6 yields `[1,2] ++ [4,5] ++ [6]`. -/
theorem dropmiddle_full_buffer_witness :
    (sampleMiddleBuffer.add 6).1.buffer = [1, 2, 4, 5, 6] := by
  have h := (dropmiddle_full_buffer sampleMiddleBuffer 6 rfl rfl).1
    (by decide) (by decide)
  exact h.trans (by decide)

/-- Counterexample to claim C7 as stated: reconfiguring to a smaller
capacity loses buffered messages — replaying `[1, 2]` into a fresh
capacity-1 `drop-oldest` buffer leaves `[2]`. -/
theorem updateconfig_shrink_loses :
    (updateBackpressureConfig
      (⟨⟨2, .dropOldest, 10⟩, [1, 2], 0, 2, 2⟩ : CircularBuffer ℕ)
      ⟨1, .dropOldest, 10⟩).buffer = [2] ∧ ([2] : List ℕ) ≠ [1, 2] := by
  decide

/-- Claim C7, amended: `update-backpressure-config` preserves the buffered
content (same messages, same order) whenever the buffered message count
fits in the *new* capacity; the replay appends each message into a fresh
buffer that never overflows. -/
theorem updateconfig_preserves {α} (b : CircularBuffer α) (newCfg : Config)
    (h : b.buffer.length ≤ newCfg.maxBufferSize) :
    (updateBackpressureConfig b newCfg).buffer = b.buffer := by
  unfold updateBackpressureConfig
  rw [replay_appends b.buffer (CircularBuffer.mk0 α newCfg) (by simpa [CircularBuffer.mk0])]
  simp [CircularBuffer.mk0]

/-- Witness for C7 (amended): two buffered messages, new capacity 5. -/
theorem updateconfig_preserves_witness :
    (updateBackpressureConfig
      (⟨⟨2, .dropOldest, 10⟩, [1, 2], 0, 2, 2⟩ : CircularBuffer ℕ)
      ⟨5, .dropMiddle, 1⟩).buffer = [1, 2] :=
  updateconfig_preserves _ _ (by decide)

/-- Counterexample to claim C10 as stated: capacity 1 with `drop-middle`
and `keepAtEdges = 0` — two `add`s on a fresh buffer leave 2 > 1 buffered
elements (and the buffer keeps growing on every further `add`). -/
theorem buffer_capacity_counterexample :
    1 ≤ (1 : ℕ) ∧
    (runOps (CircularBuffer.mk0 ℕ ⟨1, .dropMiddle, 0⟩)
      [.add 1, .add 2]).buffer.length = 2 ∧ ¬ (2 ≤ 1) := by
  decide

end IngressClaims

namespace Ingress

lemma applyOp_inv {α : Type} (cfg : Config)
    (hcap : 1 ≤ cfg.maxBufferSize)
    (hmid : cfg.dropStrategy = .dropMiddle → 1 ≤ cfg.keepAtEdges)
    (b : CircularBuffer α) (op : BufOp α)
    (hc : b.config = cfg) (hlen : b.buffer.length ≤ cfg.maxBufferSize) :
    (applyOp b op).config = cfg ∧
    (applyOp b op).buffer.length ≤ cfg.maxBufferSize := by
  cases op with
  | getNext =>
      refine ⟨by simpa [applyOp, CircularBuffer.getNext] using hc, ?_⟩
      simp only [applyOp, CircularBuffer.getNext, List.length_tail]
      omega
  | clear =>
      simp [applyOp, CircularBuffer.clear, hc, hcap]
  | add m =>
      refine ⟨by rw [applyOp, add_config, hc], ?_⟩
      show ((b.add m).1).buffer.length ≤ cfg.maxBufferSize
      by_cases hf : b.buffer.length < b.config.maxBufferSize
      · rw [add_not_full b m hf]
        rw [hc] at hf
        simp
        omega
      · have hfull : b.buffer.length = cfg.maxBufferSize := by
          rw [hc] at hf; omega
        unfold CircularBuffer.add
        dsimp only
        rw [if_neg (by simpa using hf)]
        dsimp only
        cases hs : b.config.dropStrategy with
        | dropOldest =>
            dsimp only
            simp only [List.length_append, List.length_tail, List.length_cons,
              List.length_nil]
            omega
        | dropNewest => dsimp only; omega
        | dropMiddle =>
            dsimp only
            have hk : 1 ≤ cfg.keepAtEdges := hmid (by rw [← hc, hs])
            unfold CircularBuffer.dropMiddleStrategy
            dsimp only
            by_cases hm : b.config.maxBufferSize ≤ b.config.keepAtEdges * 2
            · rw [if_pos hm]
              simp only [List.length_append, List.length_tail, List.length_cons,
                List.length_nil]
              omega
            · rw [if_neg hm]
              unfold CircularBuffer.jsSliceFromEnd
              rw [if_neg (by rw [hc]; omega)]
              simp only [List.length_append, List.length_take, List.length_drop,
                List.length_cons, List.length_nil]
              rw [hc] at hm
              rw [hc]
              omega

lemma runOps_inv {α : Type} (cfg : Config)
    (hcap : 1 ≤ cfg.maxBufferSize)
    (hmid : cfg.dropStrategy = .dropMiddle → 1 ≤ cfg.keepAtEdges) :
    ∀ (ops : List (BufOp α)) (b : CircularBuffer α),
      b.config = cfg → b.buffer.length ≤ cfg.maxBufferSize →
      (runOps b ops).buffer.length ≤ cfg.maxBufferSize
  | [], b, _, hlen => hlen
  | op :: ops, b, hc, hlen => by
      have h := applyOp_inv cfg hcap hmid b op hc hlen
      exact runOps_inv cfg hcap hmid ops (applyOp b op) h.1 h.2

end Ingress

section IngressClaims2

open Ingress Ingress.CircularBuffer

/-- Claim C10, amended: for a fixed configuration with capacity ≥ 1 —
and, under `drop-middle`, `keepAtEdges ≥ 1` (for `keepAtEdges = 0` the
`slice(-0)` quirk lets the buffer grow past its capacity) — the number of
buffered elements never exceeds the capacity over any sequence of `add`,
`getNext` and `clear` operations. -/
theorem buffer_capacity_invariant {α : Type} (cfg : Config)
    (hcap : 1 ≤ cfg.maxBufferSize)
    (hmid : cfg.dropStrategy = .dropMiddle → 1 ≤ cfg.keepAtEdges)
    (ops : List (BufOp α)) :
    (runOps (CircularBuffer.mk0 α cfg) ops).buffer.length ≤ cfg.maxBufferSize :=
  runOps_inv cfg hcap hmid ops (CircularBuffer.mk0 α cfg) rfl
    (by simp [CircularBuffer.mk0])

/-- Witness for C10 (amended): capacity 2, drop-oldest, three adds. -/
theorem buffer_capacity_invariant_witness :
    (runOps (CircularBuffer.mk0 ℕ ⟨2, .dropOldest, 10⟩)
      [.add 5, .add 6, .add 7]).buffer.length ≤ 2 :=
  buffer_capacity_invariant ⟨2, .dropOldest, 10⟩ (by decide) (by decide) _

end IngressClaims2

namespace Worker

open Ingress

/-- The states from which no Update decode can be the next decode: either
the decoder is in its reset state, or both tiers are empty and the socket
is closed (so nothing can be processed before a `connect`, which resets
the decoder). -/
def safeState (s : WorkerState) : Prop :=
  s.isFirstMessage = true ∨
    (s.pendingMessages = [] ∧ s.runtimeBuffer.buffer = [] ∧ s.connected = false)

lemma handle_preserves (s : WorkerState) (m : ℕ) :
    (handleWebSocketMessage s m).decodeLog = s.decodeLog ∧
    (handleWebSocketMessage s m).isFirstMessage = s.isFirstMessage := by
  unfold handleWebSocketMessage
  split
  · exact ⟨rfl, rfl⟩
  · exact ⟨rfl, rfl⟩

lemma foldl_handle_preserves :
    ∀ (msgs : List ℕ) (s : WorkerState),
      (msgs.foldl handleWebSocketMessage s).decodeLog = s.decodeLog ∧
      (msgs.foldl handleWebSocketMessage s).isFirstMessage = s.isFirstMessage
  | [], s => ⟨rfl, rfl⟩
  | m :: rest, s => by
      rw [List.foldl_cons]
      have h1 := handle_preserves s m
      have h2 := foldl_handle_preserves rest (handleWebSocketMessage s m)
      exact ⟨h2.1.trans h1.1, h2.2.trans h1.2⟩

lemma wStep_log_mono (s : WorkerState) (e : WEvent) :
    ∃ u, (wStep s e).decodeLog = s.decodeLog ++ u := by
  cases e with
  | connect =>
      refine ⟨[], ?_⟩
      cases hc : s.connected <;> simp [wStep, connectOp, disconnectOp, hc]
  | disconnect => exact ⟨[], by simp [wStep, disconnectOp]⟩
  | wsMessage m =>
      refine ⟨[], ?_⟩
      cases hc : s.connected with
      | false => simp [wStep, hc]
      | true => simp [wStep, hc, (handle_preserves s m).1]
  | protobufReady =>
      exact ⟨[], by
        simp [wStep, protobufReadyOp, (foldl_handle_preserves s.pendingMessages _).1]⟩
  | processOne =>
      cases hb : s.runtimeBuffer.buffer with
      | nil =>
          exact ⟨[], by simp [wStep, processOneOp, CircularBuffer.getNext, hb]⟩
      | cons x rest =>
          cases hf : s.isFirstMessage with
          | true =>
              exact ⟨[DecodeKind.header], by
                simp [wStep, processOneOp, CircularBuffer.getNext, hb,
                  processRuntimeMessage, hf]⟩
          | false =>
              exact ⟨[DecodeKind.update], by
                simp [wStep, processOneOp, CircularBuffer.getNext, hb,
                  processRuntimeMessage, hf]⟩

lemma wRun_log_mono :
    ∀ (evs : List WEvent) (s : WorkerState),
      ∃ t, (wRun s evs).decodeLog = s.decodeLog ++ t
  | [], s => ⟨[], by simp [wRun]⟩
  | e :: evs, s => by
      obtain ⟨u, hu⟩ := wStep_log_mono s e
      obtain ⟨t, ht⟩ := wRun_log_mono evs (wStep s e)
      exact ⟨u ++ t, by
        show (wRun (wStep s e) evs).decodeLog = _
        rw [ht, hu, List.append_assoc]⟩

lemma wStep_safe_cases (s : WorkerState) (e : WEvent) (hP : safeState s) :
    ((wStep s e).decodeLog = s.decodeLog ∧ safeState (wStep s e)) ∨
    (wStep s e).decodeLog = s.decodeLog ++ [DecodeKind.header] := by
  cases e with
  | connect =>
      left
      constructor
      · cases hc : s.connected <;> simp [wStep, connectOp, disconnectOp, hc]
      · left
        cases hc : s.connected <;> simp [wStep, connectOp, disconnectOp, hc]
  | disconnect =>
      left
      exact ⟨by simp [wStep, disconnectOp],
        Or.inr ⟨rfl, rfl, rfl⟩⟩
  | wsMessage m =>
      left
      rcases hP with hf | ⟨hp, hb, hc⟩
      · cases hc : s.connected with
        | false => exact ⟨by simp [wStep, hc], Or.inl (by simp [wStep, hc, hf])⟩
        | true =>
            refine ⟨by simp [wStep, hc, (handle_preserves s m).1], Or.inl ?_⟩
            simp [wStep, hc, (handle_preserves s m).2, hf]
      · rw [wStep, if_neg (by rw [hc]; exact Bool.false_ne_true)]
        exact ⟨rfl, Or.inr ⟨hp, hb, hc⟩⟩
  | protobufReady =>
      left
      rcases hP with hf | ⟨hp, hb, hc⟩
      · exact ⟨by simp [wStep, protobufReadyOp,
            (foldl_handle_preserves s.pendingMessages _).1],
          Or.inl (by
            simp [wStep, protobufReadyOp,
              (foldl_handle_preserves s.pendingMessages _).2, hf])⟩
      · refine ⟨by simp [wStep, protobufReadyOp, hp], Or.inr ?_⟩
        simp [wStep, protobufReadyOp, hp, hb, hc]
  | processOne =>
      cases hb : s.runtimeBuffer.buffer with
      | nil =>
          left
          refine ⟨by simp [wStep, processOneOp, CircularBuffer.getNext, hb], ?_⟩
          have : wStep s .processOne = s := by
            simp [wStep, processOneOp, CircularBuffer.getNext, hb]
          rw [this]; exact hP
      | cons x rest =>
          rcases hP with hf | ⟨_, hbuf, _⟩
          · right
            simp [wStep, processOneOp, CircularBuffer.getNext, hb,
              processRuntimeMessage, hf]
          · rw [hbuf] at hb
            exact absurd hb (by simp)

lemma decodesAfter_safe :
    ∀ (evs : List WEvent) (s : WorkerState), safeState s →
      decodesAfter s evs = [] ∨
      ∃ rest, decodesAfter s evs = DecodeKind.header :: rest
  | [], s, _ => Or.inl (by simp [decodesAfter, wRun])
  | e :: evs, s, hP => by
      have hrun : wRun s (e :: evs) = wRun (wStep s e) evs := rfl
      rcases wStep_safe_cases s e hP with ⟨hlog, hsafe⟩ | hlog
      · have ih := decodesAfter_safe evs (wStep s e) hsafe
        have heq : decodesAfter s (e :: evs) = decodesAfter (wStep s e) evs := by
          simp [decodesAfter, hrun, hlog]
        rw [heq]
        exact ih
      · right
        obtain ⟨t, ht⟩ := wRun_log_mono evs (wStep s e)
        refine ⟨t, ?_⟩
        have : (wRun s (e :: evs)).decodeLog =
            s.decodeLog ++ (DecodeKind.header :: t) := by
          rw [hrun, ht, hlog, List.append_assoc]
          rfl
        simp [decodesAfter, this]

end Worker

section WorkerClaims

open Worker

/-- Counterexample to claim C9 as stated: from the initial worker state,
run `connect`, schema ready, one message arrival and one processor slice —
the message is decoded as the Directory, leaving `isFirstMessage = false`.
`disconnect` then clears the buffers but does *not* reset the decode
state machine: `isFirstMessage` stays `false` immediately after the
disconnect completes (it is `connect` that resets it). -/
theorem disconnect_leaves_decode_state :
    (wRun initWorker
      [.connect, .protobufReady, .wsMessage 7, .processOne]).decodeLog =
        [DecodeKind.header] ∧
    (wStep (wRun initWorker
      [.connect, .protobufReady, .wsMessage 7, .processOne])
        .disconnect).isFirstMessage = false := by
  decide

/-- Claim C9, amended: immediately after `disconnect`, the Tier-1 pending
queue and the Tier-2 runtime buffer are both empty; the decode flag itself
is reset by `connect`, not by `disconnect` — but since no message can be
received on a closed socket, along every event continuation the *next
decode performed* after the disconnect (if any) is a Directory (header)
decode, never an Update. -/
theorem disconnect_clears_buffers_next_decode_header (s : WorkerState) :
    (disconnectOp s).pendingMessages = [] ∧
    (disconnectOp s).runtimeBuffer.buffer = [] ∧
    ∀ evs : List WEvent,
      decodesAfter (disconnectOp s) evs = [] ∨
      ∃ rest, decodesAfter (disconnectOp s) evs = DecodeKind.header :: rest :=
  ⟨rfl, rfl, fun evs =>
    decodesAfter_safe evs (disconnectOp s) (Or.inr ⟨rfl, rfl, rfl⟩)⟩

end WorkerClaims

namespace Osc

lemma updateSym_volume (sinQ : ℚ → ℚ) (t : ℕ) (s : SymState) :
    (updateSym sinQ t s).volume = s.volume := rfl

lemma updateSym_invariant (sinQ : ℚ → ℚ) (t : ℕ) (s : SymState) :
    0 < (updateSym sinQ t s).last ∧
    (updateSym sinQ t s).sessionLow ≤ (updateSym sinQ t s).last ∧
    (updateSym sinQ t s).last ≤ (updateSym sinQ t s).sessionHigh := by
  unfold updateSym
  dsimp only
  refine ⟨lt_of_lt_of_le (by norm_num) (le_max_left _ _), ?_, ?_⟩
  · split_ifs with h
    · exact le_refl _
    · exact le_of_not_lt h
  · split_ifs with h
    · exact le_refl _
    · exact le_of_not_lt h

lemma genAfter_syms_length (sinQ : ℚ → ℚ) (piQ : ℚ) (table : List Stock) :
    ∀ n, (genAfter sinQ piQ table n).syms.length = table.length
  | 0 => by simp [genAfter, ticks, initGen]
  | n + 1 => by
      have ih := genAfter_syms_length sinQ piQ table n
      show (batchUpdate sinQ (genAfter sinQ piQ table n)).syms.length = _
      simp [batchUpdate, ih]

lemma genAfter_succ (sinQ : ℚ → ℚ) (piQ : ℚ) (table : List Stock) (n : ℕ) :
    genAfter sinQ piQ table (n + 1) =
      batchUpdate sinQ (genAfter sinQ piQ table n) := rfl

lemma genAfter_volumes (sinQ : ℚ → ℚ) (piQ : ℚ) (table : List Stock) :
    ∀ n, (genAfter sinQ piQ table n).syms.map (·.volume) =
      table.map (·.volume)
  | 0 => by
      show ((table.map (initSym sinQ piQ)).map (·.volume)) = _
      rw [List.map_map]
      rfl
  | n + 1 => by
      have ih := genAfter_volumes sinQ piQ table n
      show (((genAfter sinQ piQ table n).syms.map
        (updateSym sinQ ((genAfter sinQ piQ table n).timeStep + 1))).map
          (·.volume)) = _
      rw [List.map_map]
      exact ih

lemma mem_updatedRecords {g : GenState} {r : PnL.UpdateRecord}
    (h : r ∈ updatedRecords g) :
    ∃ i s, i ∈ g.updateQueue ∧ g.syms[i]? = some s ∧
      r = ⟨(i : ℚ), s.last, s.change, s.changePercentage, s.sessionHigh,
        s.sessionLow, s.volume⟩ := by
  rw [updatedRecords, List.mem_filterMap] at h
  obtain ⟨i, hi, hmap⟩ := h
  rw [Option.map_eq_some'] at hmap
  obtain ⟨s, hs, hr⟩ := hmap
  exact ⟨i, s, hi, hs, hr.symm⟩

lemma filterMap_range_get (syms : List SymState) :
    ∀ k, k ≤ syms.length →
      (((List.range k).filterMap fun (i : ℕ) =>
        (syms[i]?).map fun s =>
          (⟨(i : ℚ), s.last, s.change, s.changePercentage, s.sessionHigh,
            s.sessionLow, s.volume⟩ : PnL.UpdateRecord)).map
              (·.symbolIndex)) =
        (List.range k).map fun i => (i : ℚ)
  | 0, _ => rfl
  | k + 1, h => by
      have hk : k < syms.length := h
      obtain ⟨s, hs⟩ : ∃ s, syms[k]? = some s :=
        ⟨_, List.getElem?_eq_getElem hk⟩
      have ih := filterMap_range_get syms k (le_of_lt hk)
      rw [List.range_succ, List.filterMap_append, List.map_append, ih]
      simp [hs]

lemma updatedRecords_batchUpdate (sinQ : ℚ → ℚ) (g : GenState) :
    updatedRecords (batchUpdate sinQ g) =
      (List.range g.syms.length).filterMap fun (i : ℕ) =>
        ((g.syms.map (updateSym sinQ (g.timeStep + 1)))[i]?).map fun s =>
          (⟨(i : ℚ), s.last, s.change, s.changePercentage, s.sessionHigh,
            s.sessionLow, s.volume⟩ : PnL.UpdateRecord) := rfl

end Osc

section OscClaims

open Osc

/-- Claim C4, amended: the oscillator performs no change detection at all —
`batchUpdate` updates *every* stock each tick and enqueues every index, so
the emitted batch always contains exactly one record per reference-table
symbol, in index order, whether or not any value changed.  (Stated for
every sine evaluation `sinQ` and `Math.PI` value `piQ`; the source's
`Math.sin`/`Math.PI` are one such instance.) -/
theorem osc_batch_all_symbols (sinQ : ℚ → ℚ) (piQ : ℚ) (table : List Stock)
    (n : ℕ) :
    (batchAt sinQ piQ table (n + 1)).map (·.symbolIndex) =
      (List.range table.length).map (fun i => (i : ℚ)) := by
  have hlen := genAfter_syms_length sinQ piQ table n
  show ((updatedRecords (genAfter sinQ piQ table (n + 1))).map
    (·.symbolIndex)) = _
  rw [genAfter_succ, updatedRecords_batchUpdate]
  rw [filterMap_range_get ((genAfter sinQ piQ table n).syms.map
    (updateSym sinQ ((genAfter sinQ piQ table n).timeStep + 1)))
    ((genAfter sinQ piQ table n).syms.length) (by simp)]
  rw [hlen]

end OscClaims


section OscCounterexample

open Osc

/-- A one-row reference table whose stock has `last = 0`: the price floor
makes its emitted record identical from tick to tick, for every sine
evaluation. -/
def zeroStockTable : List Stock :=
  [⟨[65], 0, 1/100, 1/100, 5⟩]

/-- Counterexample to claim C4 as stated: on `zeroStockTable` the record
of symbol 0 is identical at tick 1 and tick 2 (the floor price `0.01`
pins every field, whatever the sine evaluates to), yet tick 2's batch
re-emits it — the generator never checks whether a value changed.
(Instantiated at the sine evaluation `fun _ => 0` and `piQ = 0` to be
closed; the pinned record makes the sine values irrelevant.) -/
theorem osc_reemits_unchanged_record :
    batchAt (fun _ => 0) 0 zeroStockTable 2 = batchAt (fun _ => 0) 0 zeroStockTable 1 ∧
    batchAt (fun _ => 0) 0 zeroStockTable 1 ≠ [] := by
  have h1 : batchAt (fun _ => 0) 0 zeroStockTable 1 =
      [⟨0, 1/100, 1/100, 0, 1/100, 1/100, 5⟩] := by
    norm_num [batchAt, genAfter, ticks, initGen, initSym, batchUpdate, updateSym,
      updatedRecords, zeroStockTable, max_self, min_self,
      show List.range 1 = [0] from rfl, List.filterMap_cons, List.filterMap_nil]
  have h2 : batchAt (fun _ => 0) 0 zeroStockTable 2 =
      [⟨0, 1/100, 1/100, 0, 1/100, 1/100, 5⟩] := by
    norm_num [batchAt, genAfter, ticks, initGen, initSym, batchUpdate, updateSym,
      updatedRecords, zeroStockTable, max_self, min_self,
      show List.range 1 = [0] from rfl, List.filterMap_cons, List.filterMap_nil]
  refine ⟨h2.trans h1.symm, ?_⟩
  rw [h1]
  simp

end OscCounterexample

section OscClaims2

open Osc

/-- Claim C5: every record in every emitted batch satisfies `last > 0`,
`high ≥ last ≥ low`, `volume ≥ 0` with `volume` integral (assuming the
reference table's volumes are non-negative integers, as in the S&P data
set), and `symbolIndex` a valid index into the Directory.  Holds for every
sine evaluation and `Math.PI` value. -/
theorem osc_record_invariants (sinQ : ℚ → ℚ) (piQ : ℚ) (table : List Stock)
    (hvol : ∀ st ∈ table, ∃ k : ℕ, st.volume = (k : ℚ)) (n : ℕ)
    (r : PnL.UpdateRecord) (hr : r ∈ batchAt sinQ piQ table n) :
    0 < r.last ∧ r.low ≤ r.last ∧ r.last ≤ r.high ∧
    0 ≤ r.volume ∧ (∃ k : ℕ, r.volume = (k : ℚ)) ∧
    ∃ i : ℕ, r.symbolIndex = (i : ℚ) ∧ i < table.length := by
  cases n with
  | zero =>
      exfalso
      revert hr
      show r ∈ updatedRecords (initGen sinQ piQ table) → False
      simp [updatedRecords, initGen]
  | succ m =>
      replace hr : r ∈ updatedRecords (genAfter sinQ piQ table (m + 1)) := hr
      obtain ⟨i, s, hiq, hgs, hreq⟩ := mem_updatedRecords hr
      have hq : (genAfter sinQ piQ table (m + 1)).updateQueue =
          List.range (genAfter sinQ piQ table m).syms.length := rfl
      rw [hq, List.mem_range, genAfter_syms_length] at hiq
      have hsyms : (genAfter sinQ piQ table (m + 1)).syms =
          (genAfter sinQ piQ table m).syms.map
            (updateSym sinQ ((genAfter sinQ piQ table m).timeStep + 1)) := rfl
      rw [hsyms, List.getElem?_map] at hgs
      obtain ⟨s0, hs0, hsEq⟩ := Option.map_eq_some'.1 hgs
      subst hsEq
      have hinv := updateSym_invariant sinQ
        ((genAfter sinQ piQ table m).timeStep + 1) s0
      have hvols := genAfter_volumes sinQ piQ table m
      have hvol_i : ((genAfter sinQ piQ table m).syms.map (·.volume))[i]? =
          (table.map (·.volume))[i]? := by rw [hvols]
      rw [List.getElem?_map, List.getElem?_map, hs0,
        List.getElem?_eq_getElem hiq] at hvol_i
      have hsv : s0.volume = table[i].volume := by simpa using hvol_i
      obtain ⟨k, hk⟩ := hvol table[i] (List.getElem_mem hiq)
      subst hreq
      refine ⟨hinv.1, hinv.2.1, hinv.2.2, ?_, ⟨k, ?_⟩, ⟨i, rfl, hiq⟩⟩
      · show (0:ℚ) ≤ (updateSym sinQ
          ((genAfter sinQ piQ table m).timeStep + 1) s0).volume
        rw [updateSym_volume, hsv, hk]
        positivity
      · show (updateSym sinQ
          ((genAfter sinQ piQ table m).timeStep + 1) s0).volume = (k : ℚ)
        rw [updateSym_volume, hsv, hk]

/-- A one-row reference table with unit price and integral volume, used to
witness C5 and C8. -/
def oneStockTable : List Stock :=
  [⟨[65], 1, 2, 1/2, 5⟩]

/-- Witness for C5: the record emitted at tick 1 for `oneStockTable`
(price pinned at 1 by the zero sine evaluation) satisfies all the
invariants. -/
theorem osc_record_invariants_witness :
    0 < (⟨0, 1, 0, 0, 2, 1/2, 5⟩ : PnL.UpdateRecord).last ∧
    (⟨0, 1, 0, 0, 2, 1/2, 5⟩ : PnL.UpdateRecord).low ≤
      (⟨0, 1, 0, 0, 2, 1/2, 5⟩ : PnL.UpdateRecord).last ∧
    (⟨0, 1, 0, 0, 2, 1/2, 5⟩ : PnL.UpdateRecord).last ≤
      (⟨0, 1, 0, 0, 2, 1/2, 5⟩ : PnL.UpdateRecord).high ∧
    0 ≤ (⟨0, 1, 0, 0, 2, 1/2, 5⟩ : PnL.UpdateRecord).volume ∧
    (∃ k : ℕ, (⟨0, 1, 0, 0, 2, 1/2, 5⟩ : PnL.UpdateRecord).volume = (k : ℚ)) ∧
    ∃ i : ℕ, (⟨0, 1, 0, 0, 2, 1/2, 5⟩ : PnL.UpdateRecord).symbolIndex = (i : ℚ) ∧
      i < oneStockTable.length := by
  refine osc_record_invariants (fun _ => 0) 0 oneStockTable ?_ 1 _ ?_
  · intro st hst
    rw [oneStockTable, List.mem_singleton] at hst
    subst hst
    exact ⟨5, by norm_num⟩
  · have hb : batchAt (fun _ => 0) 0 oneStockTable 1 =
        [⟨0, 1, 0, 0, 2, 1/2, 5⟩] := by
      norm_num [batchAt, genAfter, ticks, initGen, initSym, batchUpdate,
        updateSym, updatedRecords, oneStockTable,
        show max (1/100 : ℚ) 1 = 1 from max_eq_right (by norm_num),
        show max (2 : ℚ) 1 = 2 from max_eq_left (by norm_num),
        show min (1/2 : ℚ) 1 = 1/2 from min_eq_left (by norm_num),
        show List.range 1 = [0] from rfl, List.filterMap_cons,
        List.filterMap_nil]
    rw [hb]
    exact List.mem_singleton.2 rfl

/-- Claim C8: the oscillator engine is deterministic — two generator runs
constructed from the same reference table emit identical batches at every
tick, and the per-symbol frequency, amplitude, phase and time-offset
parameters are functions of `hashSymbol` of the ticker string alone.
There is no wall-clock or RNG input anywhere in the model: `batchUpdate`
and `initGen` are pure functions of the table, the tick counter, and the
fixed `Math.sin`/`Math.PI` evaluations (`sinQ`, `piQ`). -/
theorem osc_deterministic (sinQ : ℚ → ℚ) (piQ : ℚ) (table : List Stock)
    (n : ℕ) (g1 g2 : GenState)
    (h1 : g1 = initGen sinQ piQ table) (h2 : g2 = initGen sinQ piQ table) :
    updatedRecords (ticks sinQ g1 n) = updatedRecords (ticks sinQ g2 n) ∧
    g1.syms.map (·.frequency) =
      table.map (fun st => getStockFrequency st.symbol) ∧
    g1.syms.map (·.amplitude) =
      table.map (fun st => getStockAmplitude st.symbol) ∧
    g1.syms.map (·.phase) =
      table.map (fun st => getStockPhaseOffset piQ st.symbol) ∧
    g1.syms.map (·.timeOffset) =
      table.map (fun st => getStockTimeOffset st.symbol) := by
  subst h1; subst h2
  refine ⟨rfl, ?_, ?_, ?_, ?_⟩ <;>
    · show ((table.map (initSym sinQ piQ)).map _) = _
      rw [List.map_map]
      rfl

/-- Witness for C8 at a concrete table and tick count. -/
theorem osc_deterministic_witness :
    updatedRecords (ticks (fun _ => (0:ℚ))
        (initGen (fun _ => 0) 0 oneStockTable) 1) =
      updatedRecords (ticks (fun _ => (0:ℚ))
        (initGen (fun _ => 0) 0 oneStockTable) 1) ∧
    (initGen (fun _ => (0:ℚ)) 0 oneStockTable).syms.map (·.frequency) =
      oneStockTable.map (fun st => getStockFrequency st.symbol) ∧
    (initGen (fun _ => (0:ℚ)) 0 oneStockTable).syms.map (·.amplitude) =
      oneStockTable.map (fun st => getStockAmplitude st.symbol) ∧
    (initGen (fun _ => (0:ℚ)) 0 oneStockTable).syms.map (·.phase) =
      oneStockTable.map (fun st => getStockPhaseOffset 0 st.symbol) ∧
    (initGen (fun _ => (0:ℚ)) 0 oneStockTable).syms.map (·.timeOffset) =
      oneStockTable.map (fun st => getStockTimeOffset st.symbol) :=
  osc_deterministic (fun _ => 0) 0 oneStockTable 1 _ _ rfl rfl

end OscClaims2
